import Mathlib

/-!
Shallow embedding of the Dealer Notes Portal (src/src/App.tsx and the
unnamed TSX part files) — the Rep Coverage & Dealer Scoping Engine, its
reporting aggregator, route planner, permission gates, and the
optimistic-write flows, as needed by the claims under audit.

Modelling conventions:
* Machine timestamps (`Date.getTime()` milliseconds) are `Int`.
* A calendar month is its absolute index `year * 12 + month0`
  (`month0` 0-based, as in JS `Date.getMonth()`); the source key string
  "YYYY-MM" is in bijection with this index for CE years.
* JS `Record<string, T>` objects used as maps become association lists
  `List (String × T)` in first-insertion order, matching JS key order.
* Optional/undefined fields become `Option`; JS `x || y` string fallback
  (empty string is falsy) is `jsOrStr`.
* Fields of `Dealer`/`User`/`Note`/`Task` not consulted by any claim
  (contacts, addresses, phone, …) are omitted.
-/

namespace DealerNotes

/-- `type Role = "Admin" | "Manager" | "Rep"` -/
inductive Role where
  | Admin
  | Manager
  | Rep
deriving DecidableEq, Repr

/-- `type DealerStatus = "Active" | "Pending" | "Prospect" | "Inactive" | "Black Listed"` -/
inductive DealerStatus where
  | Active
  | Pending
  | Prospect
  | Inactive
  | BlackListed
deriving DecidableEq, Repr

/-- `type NoteCategory = "Visit" | "Problem" | "Other" | "Manager"` -/
inductive NoteCategory where
  | Visit
  | Problem
  | Other
  | Manager
deriving DecidableEq, Repr

/-- `type User` (coverage-relevant fields). `regionsByState` is the JS
record `Record<string, string[]>` as an association list. -/
structure User where
  username : String
  name : String
  role : Role
  states : List String
  regionsByState : List (String × List String)
deriving DecidableEq, Repr

/-- JS `rbs[state]`: first entry wins, absent key is `undefined`. -/
def lookupRBS (rbs : List (String × List String)) (st : String) : Option (List String) :=
  (rbs.find? (fun p => p.1 == st)).map Prod.snd

/-- `type Dealer` (fields consulted by the claims). `lastVisited` is the
parse of the stored "YYYY-MM-DD" string, in epoch milliseconds. -/
structure Dealer where
  id : String
  name : String
  state : String
  region : String
  status : DealerStatus
  assignedRepUsername : Option String
  lastVisited : Option Int
deriving DecidableEq, Repr

/-- `type Note` (fields consulted by the claims); `tsISO` is the note
timestamp in epoch milliseconds. -/
structure Note where
  id : String
  dealerId : String
  authorUsername : String
  tsISO : Int
  category : NoteCategory
deriving DecidableEq, Repr

/-- `type Task`; `createdAtISO`/`completedAtISO` as epoch milliseconds. -/
structure Task where
  id : String
  dealerId : String
  repUsername : String
  text : String
  createdAtISO : Int
  completedAtISO : Option Int
deriving DecidableEq, Repr

/-- `type Session` payload (the non-null case). -/
structure SessionInfo where
  username : String
  role : Role
deriving DecidableEq, Repr

/-- JS truthiness of an optional string: `undefined` and `""` are falsy. -/
def jsTruthy : Option String → Bool
  | none => false
  | some s => !(s == "")

/-- JS `a || b` on an optional string (empty string falls through). -/
def jsOrStr (a : Option String) (b : String) : String :=
  match a with
  | none => b
  | some s => if s == "" then b else s

/-! ## Scoping engine (ReportingView helpers, part_000 lines 2474–2486) -/

/-- `repCoversDealer(rep, d)`: override username match OR state/region
coverage — note the source combines the two with `||`. -/
def repCoversDealer (rep : User) (d : Dealer) : Bool :=
  d.assignedRepUsername == some rep.username ||
    (rep.states.contains d.state &&
      ((lookupRBS rep.regionsByState d.state).getD []).contains d.region)

/-- `getRepForDealer(d)`: prefer a resolved override among `reps`;
otherwise (including an unresolved override) the first covering rep. -/
def getRepForDealer (reps : List User) (d : Dealer) : Option User :=
  if jsTruthy d.assignedRepUsername then
    match reps.find? (fun r => r.username == d.assignedRepUsername.getD "") with
    | some u => some u
    | none => reps.find? (fun r => repCoversDealer r d)
  else
    reps.find? (fun r => repCoversDealer r d)

/-- `repNameForDealer(d)` (part_000 lines 724–734): display string for the
rep(s) of a dealer. With a truthy override: the resolved user's name
(`|| username` when the name is falsy or the user unknown); otherwise the
comma-join of all covering Rep-role users' names, or "—". -/
def repNameForDealer (users : List User) (d : Dealer) : String :=
  if jsTruthy d.assignedRepUsername then
    let x := d.assignedRepUsername.getD ""
    match users.find? (fun u => u.username == x) with
    | some u => if u.name == "" then x else u.name
    | none => x
  else
    let covering := users.filter (fun u =>
      u.role == Role.Rep && u.states.contains d.state &&
        ((lookupRBS u.regionsByState d.state).getD []).contains d.region)
    match covering with
    | [] => "—"
    | [u] => u.name
    | _ => String.intercalate ", " (covering.map (fun u => u.name))

/-! ## Dealer-notes view access predicate (part_000 lines 1570–1583) -/

/-- `repCanAccess` of DealerNotesView: Admin/Manager bypass, else a Rep
passes when assigned to the dealer OR when `me`'s state/region coverage
matches — computed from the session and `me = users.find(username)`. -/
def repCanAccess (session : Option SessionInfo) (users : List User) (dealer : Dealer) : Bool :=
  let me : Option User := session.bind (fun s => users.find? (fun u => u.username == s.username))
  let role := session.map (fun s => s.role)
  let isAdminManager := role == some Role.Admin || role == some Role.Manager
  let isRep := role == some Role.Rep
  let assignedToMe := isRep && dealer.assignedRepUsername == session.map (fun s => s.username)
  let coversState := isRep && (match me with
    | some u => u.states.contains dealer.state
    | none => false)
  let coversRegion := isRep && (match me with
    | some u =>
      (lookupRBS u.regionsByState dealer.state).isSome &&
        ((lookupRBS u.regionsByState dealer.state).getD []).contains dealer.region
    | none => false)
  let repHasCoverage := isRep && coversState && coversRegion
  isAdminManager || assignedToMe || repHasCoverage

/-- Modelled from the spec, §4.2 `covers(user, dealer)`, for comparison
with the source's predicates: with an override set the dealer is covered
by exactly that username; otherwise by state/region coverage. -/
def coversSpec (u : User) (d : Dealer) : Bool :=
  match d.assignedRepUsername with
  | some x => u.username == x
  | none =>
    u.states.contains d.state &&
      ((lookupRBS u.regionsByState d.state).getD []).contains d.region

/-! ## Reporting aggregator (ReportingView, part_000 lines 2489–2560) -/

/-- `type RepFilter = "ALL" | string`; a non-ALL filter that resolves to a
Rep-role user carries that user (`selectedRep`). -/
inductive RepScope where
  | ALL
  | rep (u : User)

/-- `scopedDealers`: all dealers, or those the selected rep covers. -/
def scopedDealers (scope : RepScope) (dealers : List Dealer) : List Dealer :=
  match scope with
  | RepScope.ALL => dealers
  | RepScope.rep u => dealers.filter (fun d => repCoversDealer u d)

/-- `scopedNotes`: all notes, or those authored by the selected rep. -/
def scopedNotes (scope : RepScope) (notes : List Note) : List Note :=
  match scope with
  | RepScope.ALL => notes
  | RepScope.rep u => notes.filter (fun n => n.authorUsername == u.username)

def msPerDay : Int := 24 * 60 * 60 * 1000

/-- The `recent` filter inside `visitsLast30`: Visit-category scoped notes
with `new Date(n.tsISO) >= cutoff`, `cutoff = now - 30 days`. -/
def recentVisits (scope : RepScope) (notes : List Note) (now : Int) : List Note :=
  (scopedNotes scope notes).filter
    (fun n => n.category == NoteCategory.Visit && now - 30 * msPerDay ≤ n.tsISO)

/-- The per-author rows of `visitsLast30`: `Object.entries(byUser)` for the
ALL scope (distinct authors in first-occurrence order, with their counts),
and the single `[selectedRep.username, count || 0]` row otherwise. -/
def visitsLast30Rows (scope : RepScope) (notes : List Note) (now : Int) :
    List (String × Nat) :=
  let recent := recentVisits scope notes now
  match scope with
  | RepScope.ALL =>
    ((recent.map (fun n => n.authorUsername)).eraseDups).map
      (fun a => (a, recent.countP (fun n => n.authorUsername == a)))
  | RepScope.rep u =>
    [(u.username, recent.countP (fun n => n.authorUsername == u.username))]

/-- `visitsLast30.total = recent.length`. -/
def visitsLast30Total (scope : RepScope) (notes : List Note) (now : Int) : Nat :=
  (recentVisits scope notes now).length

/-- `daysAgo(iso)` (part_000 lines 2445–2451): `Infinity` (here `none`)
when absent, else `Math.floor((now - d) / 86400000)`. -/
def daysAgo (now : Int) (iso : Option Int) : Option Int :=
  match iso with
  | none => none
  | some t => some ((now - t).fdiv msPerDay)

/-- `daysAgo(d.lastVisited) > 30` — `Infinity > 30` is true. -/
def daysAgoGt30 (now : Int) (iso : Option Int) : Bool :=
  match daysAgo now iso with
  | none => true
  | some k => 30 < k

/-- The `.sort` comparator of `notVisited30`:
`(a.lastVisited || "0000").localeCompare(b.lastVisited || "0000")` — the
"0000" fallback orders an absent date before every real date. -/
def lvLE (a b : Dealer) : Bool :=
  match a.lastVisited, b.lastVisited with
  | none, _ => true
  | some _, none => false
  | some x, some y => x ≤ y

/-- `notVisited30` (part_000 lines 2553–2559): Active scoped dealers with
`daysAgo(lastVisited) > 30`, sorted by `lastVisited`. -/
def notVisited30 (scope : RepScope) (dealers : List Dealer) (now : Int) : List Dealer :=
  ((scopedDealers scope dealers).filter
    (fun d => d.status == DealerStatus.Active && daysAgoGt30 now d.lastVisited)).mergeSort lvLE

/-- The `byStatus` record literal of `kpis` (part_000 lines 2497–2509). -/
structure ByStatus where
  Active : Nat
  Pending : Nat
  Prospect : Nat
  Inactive : Nat
  blackListed : Nat
deriving DecidableEq, Repr

/-- `byStatus[d.status]++`. -/
def bumpStatus (b : ByStatus) (s : DealerStatus) : ByStatus :=
  match s with
  | DealerStatus.Active => { b with Active := b.Active + 1 }
  | DealerStatus.Pending => { b with Pending := b.Pending + 1 }
  | DealerStatus.Prospect => { b with Prospect := b.Prospect + 1 }
  | DealerStatus.Inactive => { b with Inactive := b.Inactive + 1 }
  | DealerStatus.BlackListed => { b with blackListed := b.blackListed + 1 }

/-- `kpis`: total and the status histogram, starting from the all-zero
record and bumping once per scoped dealer. -/
def kpis (ds : List Dealer) : Nat × ByStatus :=
  (ds.length, ds.foldl (fun b d => bumpStatus b d.status) ⟨0, 0, 0, 0, 0⟩)

/-- The key set of the `byStatus` record, in field order — the 5 fixed
statuses of `const statuses: DealerStatus[]`. -/
def ByStatus.toList (b : ByStatus) : List (DealerStatus × Nat) :=
  [(DealerStatus.Active, b.Active), (DealerStatus.Pending, b.Pending),
   (DealerStatus.Prospect, b.Prospect), (DealerStatus.Inactive, b.Inactive),
   (DealerStatus.BlackListed, b.blackListed)]

/-- `monthsBack(n)` (part_000 lines 2430–2443), keys only: the bucket of
`new Date(y, m - i, 1)` is the absolute month index `todayM - i`
(JS month arithmetic normalizes into the year exactly this way);
`.reverse()` puts them oldest → newest. -/
def monthsBack (n : Nat) (todayM : Int) : List Int :=
  ((List.range n).map (fun i => todayM - (i : Int))).reverse

/-- `if (key in map) map[key]++` on the association list. -/
def bumpKey (map : List (Int × Nat)) (key : Int) : List (Int × Nat) :=
  map.map (fun p => if p.1 == key then (p.1, p.2 + 1) else p)

/-- `monthlyVisits`: the map seeded with the 6 `monthsBack` keys at 0,
then each Visit note bumps its month's bucket when that key is present.
`monthIndexOf` abstracts the JS `Date` year/month extraction
(`getFullYear() * 12 + getMonth()` of the note timestamp). -/
def monthlyVisits (monthIndexOf : Int → Int) (todayM : Int) (notes : List Note) :
    List (Int × Nat) :=
  let init := (monthsBack 6 todayM).map (fun k => (k, 0))
  notes.foldl
    (fun map n =>
      if n.category == NoteCategory.Visit then bumpKey map (monthIndexOf n.tsISO)
      else map)
    init

/-! ## Route planner (RepRouteView.addDealer, part_000 lines 4274–4283) -/

structure RouteStop where
  dealerId : String
  position : Int
deriving DecidableEq, Repr

/-- `Math.max(...current.map(r => r.position || 0))` for a non-empty day
(`p || 0` is the identity on a present integer position). -/
def maxPosition : List RouteStop → Int
  | [] => 0
  | r :: rs => (rs.map (fun s => s.position)).foldl max r.position

/-- `addDealer`: no-op when the dealer id is already in the day's route,
else append one stop at `max(existing positions) + 1` (1 when empty). -/
def addDealer (current : List RouteStop) (d : Dealer) : List RouteStop :=
  if current.any (fun r => r.dealerId == d.id) then current
  else
    let nextPos := if current.isEmpty then 1 else maxPosition current + 1
    current ++ [⟨d.id, nextPos⟩]

/-! ## Optimistic writes (part_000 lines 1586–1622 and 1918–1941) -/

/-- The patch argument of `updateDealer` (the field subset this model
carries); `none` means "key absent from the patch". -/
structure DealerPatch where
  name : Option String
  state : Option String
  region : Option String
  status : Option DealerStatus
  assignedRepUsername : Option (Option String)
  lastVisited : Option (Option Int)
deriving Repr

/-- JS spread `{ ...d, ...patch }` for the modelled fields. -/
def applyPatch (d : Dealer) (p : DealerPatch) : Dealer :=
  { d with
    name := p.name.getD d.name
    state := p.state.getD d.state
    region := p.region.getD d.region
    status := p.status.getD d.status
    assignedRepUsername := p.assignedRepUsername.getD d.assignedRepUsername
    lastVisited := p.lastVisited.getD d.lastVisited }

/-- Step 1 of `updateDealer`: the optimistic `setDealers` map. -/
def updateDealerLocal (dealers : List Dealer) (dealerId : String) (p : DealerPatch) :
    List Dealer :=
  dealers.map (fun d => if d.id == dealerId then applyPatch d p else d)

/-- `updateDealer` as a transition on the dealers array: the optimistic
update happens first; the non-UUID early return and the backend-error
catch both only toast, leaving the local state as updated. -/
def updateDealer (dealers : List Dealer) (dealerId : String) (p : DealerPatch)
    (isUUID backendOk : Bool) : List Dealer :=
  let optimistic := updateDealerLocal dealers dealerId p
  if !isUUID then optimistic
  else if backendOk then optimistic
  else optimistic

/-- `completeMyTask` as a transition on the tasks array: optimistic
`completedAtISO := when`, rolled back to unset when the backend errors. -/
def completeMyTask (tasks : List Task) (taskId : String) (whenTs : Int)
    (backendOk : Bool) : List Task :=
  let optimistic := tasks.map (fun t =>
    if t.id == taskId then { t with completedAtISO := some whenTs } else t)
  if backendOk then optimistic
  else optimistic.map (fun t =>
    if t.id == taskId then { t with completedAtISO := none } else t)

/-! ## Regions catalog (UserManagement, part_000 lines 4990–5024) -/

/-- `dealerCountFor(st, rg)`: dealers referencing that state and region. -/
def dealerCountFor (dealers : List Dealer) (st rg : String) : Nat :=
  (dealers.filter (fun d => d.state == st && d.region == rg)).length

/-- The `setRegions` updater of `deleteRegion`: `next[st]` becomes the
list with `rg` filtered out, and the key is deleted when that is empty. -/
def removeRegionFromCatalog (regions : List (String × List String)) (st rg : String) :
    List (String × List String) :=
  let filteredSt := ((lookupRBS regions st).getD []).filter (fun x => !(x == rg))
  if filteredSt.isEmpty then regions.filter (fun p => !(p.1 == st))
  else regions.map (fun p => if p.1 == st then (p.1, filteredSt) else p)

/-- The `setUsers` updater of `deleteRegion`: strip `rg` from each user's
`regionsByState[st]` when that key is present. -/
def removeRegionFromUsers (users : List User) (st rg : String) : List User :=
  users.map (fun u =>
    { u with regionsByState := u.regionsByState.map (fun p =>
        if p.1 == st then (p.1, p.2.filter (fun x => !(x == rg))) else p) })

/-- `deleteRegion(st, rg)`: guarded by `dealerCountFor` — on a positive
count it only toasts (first component `false`, state untouched); on zero
it updates the catalog and every user's coverage. -/
def deleteRegion (dealers : List Dealer) (regions : List (String × List String))
    (users : List User) (st rg : String) :
    Bool × List (String × List String) × List User :=
  if dealerCountFor dealers st rg > 0 then (false, regions, users)
  else (true, removeRegionFromCatalog regions st rg, removeRegionFromUsers users st rg)

/-! ## Manager-note task (addNote step 3, part_000 lines 1872–1903) -/

/-- The Manager-note branch of `addNote`: when the category is Manager and
the author may use manager notes, a task for
`dealer.assignedRepUsername || session.username` is created (skipped when
that is empty). -/
def managerNoteTask (role : Role) (username : String) (noteCategory : NoteCategory)
    (dealer : Dealer) (nowTs : Int) (taskId : String) : Option Task :=
  let canUseManagerNote := role == Role.Admin || role == Role.Manager
  if noteCategory == NoteCategory.Manager && canUseManagerNote then
    let repUser := jsOrStr dealer.assignedRepUsername username
    if !(repUser == "") then
      some ⟨taskId, dealer.id, repUser, dealer.name, nowTs, none⟩
    else none
  else none

/-! ## Reporting gate (part_000 lines 3508–3511, 888–889, 514–515) -/

/-- `can.reporting` from the session: `role === "Admin" || role === "Manager"`. -/
def canReporting (session : Option SessionInfo) : Bool :=
  session.map (fun s => s.role) == some Role.Admin ||
    session.map (fun s => s.role) == some Role.Manager

/-- The `disabled` flag of the TopBar Reporting tab: `!can.reporting`. -/
def reportingTabDisabled (session : Option SessionInfo) : Bool :=
  !(canReporting session)

/-- `canSeeReporting` (the home-screen Reporting shortcut guard):
`can.reporting && (role === "Admin" || role === "Manager")`. -/
def canSeeReporting (session : Option SessionInfo) : Bool :=
  canReporting session &&
    (session.map (fun s => s.role) == some Role.Admin ||
      session.map (fun s => s.role) == some Role.Manager)

/-! ## Concrete fixtures used by counterexamples and witnesses -/

/-- A Rep covering IL / North. -/
def repBob : User := ⟨"bob", "Bob", Role.Rep, ["IL"], [("IL", ["North"])]⟩

/-- A Rep covering TX / South. -/
def repAlice : User := ⟨"alice", "Alice", Role.Rep, ["TX"], [("TX", ["South"])]⟩

/-- An IL / North dealer explicitly assigned to alice. -/
def dealerOverridden : Dealer :=
  ⟨"d1", "Dealer One", "IL", "North", DealerStatus.Active, some "alice", none⟩

/-- An IL / North dealer whose override names an unknown username. -/
def dealerOrphan : Dealer :=
  ⟨"d2", "Dealer Two", "IL", "North", DealerStatus.Active, some "ghost", none⟩

/-! ## C1 -/

/-- C1 counterexample: `dealerOverridden` is assigned to "alice", yet
`repCoversDealer` also accepts bob through his IL/North coverage, so the
override is not exclusive; and for the unresolved override of
`dealerOrphan`, `getRepForDealer` falls back to the covering rep bob
instead of resolving to nobody. -/
theorem c1_override_exclusivity_cex :
    dealerOverridden.assignedRepUsername = some "alice" ∧
    repBob.username ≠ "alice" ∧
    repCoversDealer repBob dealerOverridden = true ∧
    dealerOrphan.assignedRepUsername = some "ghost" ∧
    repBob.username ≠ "ghost" ∧
    getRepForDealer [repBob] dealerOrphan = some repBob := by
  refine ⟨rfl, by decide, by decide, rfl, by decide, by decide⟩

/-- C1 (amended): for a dealer with a non-empty override `x`, the override
governs attribution but not the covering relation — `repCoversDealer` also
accepts any rep whose state/region coverage matches; `getRepForDealer`
returns the first user with username `x` when one exists and otherwise
falls back to the first covering rep; `repNameForDealer` displays only the
override (the resolved user's name, or `x` itself when unresolved). -/
theorem c1_override_semantics (d : Dealer) (x : String)
    (hx : d.assignedRepUsername = some x) (hne : x ≠ "") :
    (∀ u : User, repCoversDealer u d = true ↔
      (u.username = x ∨
        (d.state ∈ u.states ∧ d.region ∈ (lookupRBS u.regionsByState d.state).getD []))) ∧
    (∀ reps : List User, ∀ u : User,
      reps.find? (fun r => r.username == x) = some u → getRepForDealer reps d = some u) ∧
    (∀ reps : List User,
      reps.find? (fun r => r.username == x) = none →
        getRepForDealer reps d = reps.find? (fun r => repCoversDealer r d)) ∧
    (∀ users : List User, ∀ u : User,
      users.find? (fun v => v.username == x) = some u → u.name ≠ "" →
        repNameForDealer users d = u.name) ∧
    (∀ users : List User,
      users.find? (fun v => v.username == x) = none → repNameForDealer users d = x) := by
  have htr : jsTruthy d.assignedRepUsername = true := by
    simp [jsTruthy, hx, hne]
  have hget : d.assignedRepUsername.getD "" = x := by simp [hx]
  refine ⟨?_, ?_, ?_, ?_, ?_⟩
  · intro u
    simp only [repCoversDealer, hx]
    constructor
    · intro h
      have h' : x = u.username ∨
          (d.state ∈ u.states ∧ d.region ∈ (lookupRBS u.regionsByState d.state).getD []) := by
        simpa using h
      rcases h' with h1 | h1
      · exact Or.inl h1.symm
      · exact Or.inr h1
    · intro h
      rcases h with h1 | h1
      · simp [h1]
      · simp [h1.1, h1.2]
  · intro reps u hfind
    simp [getRepForDealer, htr, hget, hfind]
  · intro reps hfind
    simp [getRepForDealer, htr, hget, hfind]
  · intro users u hfind hname
    simp [repNameForDealer, htr, hget, hfind, hname]
  · intro users hfind
    simp [repNameForDealer, htr, hget, hfind]

/-- C1 witness: the amended theorem applied to `dealerOverridden` with
override "alice" resolving to `repAlice` ahead of the covering `repBob`. -/
theorem c1_override_semantics_witness :
    getRepForDealer [repAlice, repBob] dealerOverridden = some repAlice := by
  have h := c1_override_semantics dealerOverridden "alice" rfl (by decide)
  exact h.2.1 [repAlice, repBob] repAlice (by decide)

/-! ## C2 -/

/-- C2 counterexample: rep bob's session passes the dealer-notes access
predicate for `dealerOverridden` through his IL/North coverage, although
the dealer's override names alice — so the predicate is not
`coversSpec(user, dealer) OR assignedRepUsername = username` (both of
which are false for bob here). -/
theorem c2_rep_access_cex :
    repCanAccess (some ⟨"bob", Role.Rep⟩) [repBob] dealerOverridden = true ∧
    coversSpec repBob dealerOverridden = false ∧
    dealerOverridden.assignedRepUsername ≠ some "bob" ∧
    repBob.username = "bob" := by
  refine ⟨by decide, by decide, by decide, rfl⟩

/-- C2 (amended): Admin and Manager sessions pass the dealer-notes access
predicate for every dealer; a Rep session passes iff the dealer's
override equals the session username OR the session's user record is
found and its state/region coverage matches the dealer (the override is
not exclusive against coverage). -/
theorem c2_repCanAccess_characterization (s : SessionInfo) (users : List User) (d : Dealer) :
    ((s.role = Role.Admin ∨ s.role = Role.Manager) → repCanAccess (some s) users d = true) ∧
    (s.role = Role.Rep →
      (repCanAccess (some s) users d = true ↔
        (d.assignedRepUsername = some s.username ∨
          ∃ u : User, users.find? (fun v => v.username == s.username) = some u ∧
            d.state ∈ u.states ∧
            (lookupRBS u.regionsByState d.state).isSome = true ∧
            d.region ∈ (lookupRBS u.regionsByState d.state).getD []))) := by
  constructor
  · intro hrole
    rcases hrole with h | h <;> simp [repCanAccess, h]
  · intro hrep
    cases hfind : users.find? (fun v => v.username == s.username) with
    | none => simp [repCanAccess, hrep, hfind]
    | some u =>
      simp [repCanAccess, hrep, hfind, and_assoc]

/-- C2 witness: the amended theorem applied to an Admin session (accesses
any dealer) and to bob's Rep session on `dealerOverridden`. -/
theorem c2_repCanAccess_witness :
    repCanAccess (some ⟨"boss", Role.Admin⟩) [] dealerOverridden = true ∧
    repCanAccess (some ⟨"bob", Role.Rep⟩) [repBob] dealerOverridden = true := by
  constructor
  · exact (c2_repCanAccess_characterization ⟨"boss", Role.Admin⟩ [] dealerOverridden).1
      (Or.inl rfl)
  · exact ((c2_repCanAccess_characterization ⟨"bob", Role.Rep⟩ [repBob] dealerOverridden).2
      rfl).mpr (Or.inr ⟨repBob, by decide, by decide, by decide, by decide⟩)

/-! ## C3 -/

/-- C3 counterexample: with `now = 0`, a Visit note time-stamped one day
in the future (`tsISO = msPerDay > now`) is counted by `visitsLast30`,
although the claimed window `now - 30d ≤ ts ≤ now` excludes it — the
upper bound is not enforced by the code. -/
theorem c3_visits_window_cex :
    visitsLast30Total RepScope.ALL [⟨"n1", "d1", "bob", 86400000, NoteCategory.Visit⟩] 0 = 1 ∧
    ¬((86400000 : Int) ≤ 0) ∧
    (([⟨"n1", "d1", "bob", 86400000, NoteCategory.Visit⟩] : List Note).filter
      (fun n => n.category == NoteCategory.Visit &&
        (0 - 30 * msPerDay ≤ n.tsISO && n.tsISO ≤ 0))).length = 0 := by
  refine ⟨by decide, by decide, by decide⟩

/-- C3 (amended): `visitsLast30` counts exactly the scoped notes with
category Visit and `now - 30d ≤ ts` (the upper bound `ts ≤ now` is not
enforced; future-dated notes count), grouped by author; for the ALL scope
there is one row per distinct author present among those notes, in first
occurrence order, carrying that author's count; for a specific-rep scope
exactly one row for that rep, whose count is zero when the rep has no
qualifying notes. -/
theorem c3_visitsLast30_spec (scope : RepScope) (notes : List Note) (now : Int) :
    (∀ n : Note, n ∈ recentVisits scope notes now ↔
      (n ∈ scopedNotes scope notes ∧ n.category = NoteCategory.Visit ∧
        now - 30 * msPerDay ≤ n.tsISO)) ∧
    ((visitsLast30Rows RepScope.ALL notes now).map Prod.fst
      = ((recentVisits RepScope.ALL notes now).map (fun n => n.authorUsername)).eraseDups) ∧
    (∀ p ∈ visitsLast30Rows RepScope.ALL notes now,
      p.2 = (recentVisits RepScope.ALL notes now).countP (fun n => n.authorUsername == p.1)) ∧
    (∀ u : User, visitsLast30Rows (RepScope.rep u) notes now
      = [(u.username, (recentVisits (RepScope.rep u) notes now).length)]) := by
  refine ⟨?_, ?_, ?_, ?_⟩
  · intro n
    simp [recentVisits, List.mem_filter, and_assoc]
  · simp [visitsLast30Rows, List.map_map, Function.comp_def]
  · intro p hp
    simp only [visitsLast30Rows, List.mem_map] at hp
    obtain ⟨a, _, rfl⟩ := hp
    rfl
  · intro u
    have hall : ∀ n ∈ recentVisits (RepScope.rep u) notes now,
        (n.authorUsername == u.username) = true := by
      intro n hn
      have h1 : n ∈ scopedNotes (RepScope.rep u) notes := (List.mem_filter.mp hn).1
      simpa [scopedNotes] using (List.mem_filter.mp h1).2
    simp [visitsLast30Rows, List.countP_eq_length.mpr hall]

/-- C3 witness: the amended theorem at concrete inputs — an empty note set
still yields the single zero row for bob's scope, and an in-window Visit
note is a member of the counted set. -/
theorem c3_visitsLast30_witness :
    visitsLast30Rows (RepScope.rep repBob) [] 0 = [("bob", 0)] ∧
    (⟨"n1", "d1", "bob", -1000, NoteCategory.Visit⟩ : Note) ∈
      recentVisits RepScope.ALL [⟨"n1", "d1", "bob", -1000, NoteCategory.Visit⟩] 0 := by
  constructor
  · have h := (c3_visitsLast30_spec (RepScope.rep repBob) [] 0).2.2.2 repBob
    simpa using h
  · exact ((c3_visitsLast30_spec RepScope.ALL
      [⟨"n1", "d1", "bob", -1000, NoteCategory.Visit⟩] 0).1 _).mpr
      ⟨by decide, rfl, by decide⟩

/-! ## C4 -/

/-- An absent `lastVisited` is infinitely overdue; a present one is
overdue iff its floored day difference exceeds 30. -/
lemma daysAgoGt30_iff (now : Int) (lv : Option Int) :
    daysAgoGt30 now lv = true ↔
      (lv = none ∨ ∃ t : Int, lv = some t ∧ 30 < (now - t).fdiv msPerDay) := by
  cases lv <;> simp [daysAgoGt30, daysAgo]

/-- C4: `notVisited30` contains exactly the scoped dealers with status
Active whose `lastVisited` is absent (infinitely overdue) or whose
floored day difference exceeds 30; in particular a dealer last visited
exactly 30 days ago is excluded and one last visited 31 days ago is
included — the boundary is strict `> 30`. -/
theorem c4_notVisited30_spec (scope : RepScope) (dealers : List Dealer) (now : Int) :
    (∀ d : Dealer, d ∈ notVisited30 scope dealers now ↔
      (d ∈ scopedDealers scope dealers ∧ d.status = DealerStatus.Active ∧
        (d.lastVisited = none ∨
          ∃ t : Int, d.lastVisited = some t ∧ 30 < (now - t).fdiv msPerDay))) ∧
    (∀ d : Dealer, d.lastVisited = some (now - 30 * msPerDay) →
      d ∉ notVisited30 scope dealers now) ∧
    (∀ d : Dealer, d ∈ scopedDealers scope dealers → d.status = DealerStatus.Active →
      d.lastVisited = some (now - 31 * msPerDay) → d ∈ notVisited30 scope dealers now) := by
  have hms : msPerDay ≠ 0 := by decide
  have h1 : ∀ d : Dealer, d ∈ notVisited30 scope dealers now ↔
      (d ∈ scopedDealers scope dealers ∧ d.status = DealerStatus.Active ∧
        (d.lastVisited = none ∨
          ∃ t : Int, d.lastVisited = some t ∧ 30 < (now - t).fdiv msPerDay)) := by
    intro d
    rw [notVisited30, List.mem_mergeSort, List.mem_filter]
    simp [daysAgoGt30_iff, and_assoc]
  refine ⟨h1, ?_, ?_⟩
  · intro d hlv hmem
    rcases (h1 d).mp hmem with ⟨-, -, hover⟩
    rcases hover with hnone | ⟨t, ht, hgt⟩
    · rw [hlv] at hnone
      exact Option.noConfusion hnone
    · rw [hlv] at ht
      have ht' : t = now - 30 * msPerDay := (Option.some.injEq _ _).mp ht.symm
      have hdiff : now - t = 30 * msPerDay := by rw [ht']; ring
      rw [hdiff, Int.mul_fdiv_cancel _ hms] at hgt
      exact absurd hgt (by norm_num)
  · intro d hmem hact hlv
    refine (h1 d).mpr ⟨hmem, hact, Or.inr ⟨now - 31 * msPerDay, hlv, ?_⟩⟩
    have hdiff : now - (now - 31 * msPerDay) = 31 * msPerDay := by ring
    rw [hdiff, Int.mul_fdiv_cancel _ hms]
    norm_num

/-- C4 witness: with `now = 0`, an Active dealer last visited 31 days ago
(−2678400000 ms) is in the list, one last visited exactly 30 days ago
(−2592000000 ms) is not. -/
theorem c4_notVisited30_witness :
    (⟨"d9", "Old", "IL", "North", DealerStatus.Active, none, some (-2678400000)⟩ : Dealer) ∈
      notVisited30 RepScope.ALL
        [⟨"d9", "Old", "IL", "North", DealerStatus.Active, none, some (-2678400000)⟩] 0 ∧
    (⟨"d8", "Edge", "IL", "North", DealerStatus.Active, none, some (-2592000000)⟩ : Dealer) ∉
      notVisited30 RepScope.ALL
        [⟨"d8", "Edge", "IL", "North", DealerStatus.Active, none, some (-2592000000)⟩] 0 := by
  constructor
  · exact (c4_notVisited30_spec RepScope.ALL
      [⟨"d9", "Old", "IL", "North", DealerStatus.Active, none, some (-2678400000)⟩] 0).2.2
      _ (by decide) rfl (by decide)
  · exact (c4_notVisited30_spec RepScope.ALL
      [⟨"d8", "Edge", "IL", "North", DealerStatus.Active, none, some (-2592000000)⟩] 0).2.1
      _ (by decide)

/-! ## C5 -/

/-- Closed form of the `kpis` status fold: each field accumulates the
count of its status. -/
lemma kpis_fold_closed (ds : List Dealer) (b : ByStatus) :
    ds.foldl (fun b d => bumpStatus b d.status) b =
      ⟨b.Active + ds.countP (fun d => d.status == DealerStatus.Active),
       b.Pending + ds.countP (fun d => d.status == DealerStatus.Pending),
       b.Prospect + ds.countP (fun d => d.status == DealerStatus.Prospect),
       b.Inactive + ds.countP (fun d => d.status == DealerStatus.Inactive),
       b.blackListed + ds.countP (fun d => d.status == DealerStatus.BlackListed)⟩ := by
  induction ds generalizing b with
  | nil => simp
  | cons d tl ih =>
    rw [List.foldl_cons, ih]
    cases hds : d.status <;>
      simp [bumpStatus, hds, List.countP_cons, ByStatus.mk.injEq] <;> omega

/-- `bumpKey` never changes the key set. -/
lemma bumpKey_fst (m : List (Int × Nat)) (k : Int) :
    (bumpKey m k).map Prod.fst = m.map Prod.fst := by
  induction m with
  | nil => rfl
  | cons p t ih =>
    simp only [bumpKey, List.map_cons] at ih ⊢
    by_cases h : (p.1 == k) = true
    · rw [if_pos h]
      exact congrArg _ ih
    · rw [if_neg h]
      exact congrArg _ ih

/-- The monthly fold only ever bumps values, so the key list stays the
seeded 6 `monthsBack` keys. -/
lemma monthlyVisits_fst (monthIndexOf : Int → Int) (todayM : Int) (notes : List Note) :
    (monthlyVisits monthIndexOf todayM notes).map Prod.fst = monthsBack 6 todayM := by
  rw [monthlyVisits]
  have hfold : ∀ (ns : List Note) (init : List (Int × Nat)),
      (ns.foldl (fun map n => if n.category == NoteCategory.Visit
          then bumpKey map (monthIndexOf n.tsISO) else map) init).map Prod.fst
        = init.map Prod.fst := by
    intro ns
    induction ns with
    | nil => intro init; rfl
    | cons n tl ih =>
      intro init
      rw [List.foldl_cons, ih]
      by_cases h : (n.category == NoteCategory.Visit) = true
      · rw [if_pos h, bumpKey_fst]
      · rw [if_neg h]
  rw [hfold, List.map_map]
  simp [Function.comp_def]

/-- The 6-month trailing window, oldest to newest. -/
lemma monthsBack_six (todayM : Int) :
    monthsBack 6 todayM =
      [todayM - 5, todayM - 4, todayM - 3, todayM - 2, todayM - 1, todayM] := by
  have h6 : List.range 6 = [0, 1, 2, 3, 4, 5] := rfl
  rw [monthsBack, h6]
  norm_num

/-- C5: the status-KPI record always carries exactly the 5 fixed dealer
statuses as keys, each holding that status's (possibly zero) count, and
the monthly visits timeline always carries exactly 6 buckets — the
current month index and the 5 prior — present even with zero counts,
ordered oldest to newest. -/
theorem c5_zero_fill (ds : List Dealer) (monthIndexOf : Int → Int) (todayM : Int)
    (notes : List Note) :
    ((kpis ds).2.toList.length = 5 ∧
      (kpis ds).2.toList.map Prod.fst =
        [DealerStatus.Active, DealerStatus.Pending, DealerStatus.Prospect,
         DealerStatus.Inactive, DealerStatus.BlackListed] ∧
      ∀ p ∈ (kpis ds).2.toList, p.2 = ds.countP (fun d => d.status == p.1)) ∧
    ((monthlyVisits monthIndexOf todayM notes).length = 6 ∧
      (monthlyVisits monthIndexOf todayM notes).map Prod.fst =
        [todayM - 5, todayM - 4, todayM - 3, todayM - 2, todayM - 1, todayM]) := by
  have hfold := kpis_fold_closed ds ⟨0, 0, 0, 0, 0⟩
  have hk : (kpis ds).2 = _ := hfold
  constructor
  · refine ⟨?_, ?_, ?_⟩
    · rw [hk]; rfl
    · rw [hk]; rfl
    · intro p hp
      rw [hk] at hp
      simp only [ByStatus.toList, List.mem_cons, List.not_mem_nil, or_false] at hp
      rcases hp with rfl | rfl | rfl | rfl | rfl <;> simp
  · have hfst := monthlyVisits_fst monthIndexOf todayM notes
    rw [monthsBack_six] at hfst
    constructor
    · have := congrArg List.length hfst
      simpa using this
    · exact hfst

/-- C5 witness: the theorem at empty inputs — the Prospect bucket is
present with count zero, and the six month buckets are present with the
newest last. -/
theorem c5_zero_fill_witness :
    (DealerStatus.Prospect, 0) ∈ (kpis ([] : List Dealer)).2.toList ∧
    ((0 : Nat) = ([] : List Dealer).countP (fun d => d.status == DealerStatus.Prospect)) ∧
    (monthlyVisits (fun _ => 0) 0 []).map Prod.fst = [-5, -4, -3, -2, -1, 0] := by
  refine ⟨by decide, ?_, ?_⟩
  · exact (c5_zero_fill [] (fun _ => 0) 0 []).1.2.2 (DealerStatus.Prospect, 0) (by decide)
  · have h := (c5_zero_fill [] (fun _ => 0) 0 []).2.2
    simpa using h

/-! ## C6 -/

lemma le_foldl_max_init (l : List Int) (b : Int) : b ≤ l.foldl max b := by
  induction l generalizing b with
  | nil => exact le_refl b
  | cons a t ih => exact le_trans (le_max_left b a) (ih (max b a))

lemma mem_le_foldl_max (l : List Int) (b a : Int) (h : a ∈ l) : a ≤ l.foldl max b := by
  induction l generalizing b with
  | nil => cases h
  | cons c t ih =>
    rcases List.mem_cons.mp h with rfl | h2
    · exact le_trans (le_max_right b a) (le_foldl_max_init t (max b a))
    · exact ih (max b c) h2

/-- Every stop's position is bounded by `maxPosition` of its route. -/
lemma mem_le_maxPosition (current : List RouteStop) (r : RouteStop) (h : r ∈ current) :
    r.position ≤ maxPosition current := by
  cases current with
  | nil => cases h
  | cons r0 rs =>
    rcases List.mem_cons.mp h with rfl | h2
    · exact le_foldl_max_init _ _
    · exact mem_le_foldl_max _ _ _ (List.mem_map.mpr ⟨r, h2, rfl⟩)

/-- C6: adding a dealer already in the day's route is a no-op; adding a
new one appends exactly one stop positioned at `maxPosition + 1` (1 when
the route is empty, and `maxPosition` bounds every existing position);
the route's dealer-id list never gains a duplicate. -/
theorem c6_addDealer_spec (current : List RouteStop) (d : Dealer) :
    (current.any (fun r => r.dealerId == d.id) = true → addDealer current d = current) ∧
    (current.any (fun r => r.dealerId == d.id) = false →
      addDealer current d =
        current ++ [⟨d.id, if current.isEmpty then 1 else maxPosition current + 1⟩]) ∧
    (∀ r ∈ current, r.position ≤ maxPosition current) ∧
    ((current.map (fun r => r.dealerId)).Nodup →
      ((addDealer current d).map (fun r => r.dealerId)).Nodup) := by
  have h1 : current.any (fun r => r.dealerId == d.id) = true → addDealer current d = current := by
    intro h
    simp [addDealer, h]
  have h2 : current.any (fun r => r.dealerId == d.id) = false →
      addDealer current d =
        current ++ [⟨d.id, if current.isEmpty then 1 else maxPosition current + 1⟩] := by
    intro h
    simp [addDealer, h]
  refine ⟨h1, h2, fun r hr => mem_le_maxPosition current r hr, ?_⟩
  intro hnd
  by_cases hany : current.any (fun r => r.dealerId == d.id) = true
  · rw [h1 hany]
    exact hnd
  · rw [h2 (Bool.eq_false_iff.mpr hany)]
    have hnotin : ∀ r ∈ current, r.dealerId ≠ d.id := by
      intro r hr
      have := List.any_eq_false.mp (Bool.eq_false_iff.mpr hany) r hr
      simpa using this
    simp only [List.map_append, List.map_cons, List.map_nil]
    rw [List.nodup_append]
    refine ⟨hnd, List.nodup_singleton _, ?_⟩
    intro a ha hb
    rcases List.mem_map.mp ha with ⟨r, hr, rfl⟩
    rcases List.mem_singleton.mp hb with h
    exact hnotin r hr h

/-- C6 witness: the theorem on the one-stop route `[("a", 1)]` — adding
dealer "a" again is a no-op, adding "b" appends it at position 2. -/
theorem c6_addDealer_witness :
    addDealer [⟨"a", 1⟩] ⟨"a", "A", "IL", "North", DealerStatus.Active, none, none⟩
      = [⟨"a", 1⟩] ∧
    addDealer [⟨"a", 1⟩] ⟨"b", "B", "IL", "North", DealerStatus.Active, none, none⟩
      = [⟨"a", 1⟩, ⟨"b", 2⟩] := by
  constructor
  · exact (c6_addDealer_spec [⟨"a", 1⟩]
      ⟨"a", "A", "IL", "North", DealerStatus.Active, none, none⟩).1 (by decide)
  · have h := (c6_addDealer_spec [⟨"a", 1⟩]
      ⟨"b", "B", "IL", "North", DealerStatus.Active, none, none⟩).2.1 (by decide)
    exact h.trans (by decide)

/-! ## C7 -/

/-- C7: a failed backend write after the optimistic dealer update leaves
the dealers array exactly as the optimistic (patched) state — identical
to the success outcome, no rollback — while a failed task completion
rolls `completedAtISO` back to unset, restoring the tasks array to its
pre-operation value (every task carrying the target id was open, as the
source's open-task guard ensures). -/
theorem c7_optimistic_failure_policy :
    (∀ (dealers : List Dealer) (dealerId : String) (p : DealerPatch) (u : Bool),
      updateDealer dealers dealerId p u false = updateDealerLocal dealers dealerId p ∧
      updateDealer dealers dealerId p u false = updateDealer dealers dealerId p u true) ∧
    (∀ (tasks : List Task) (taskId : String) (whenTs : Int),
      (∀ t ∈ tasks, t.id = taskId → t.completedAtISO = none) →
      completeMyTask tasks taskId whenTs false = tasks) := by
  constructor
  · intro dealers dealerId p u
    cases u <;> exact ⟨rfl, rfl⟩
  · intro tasks taskId whenTs h
    have hmain : ∀ l : List Task, (∀ t ∈ l, t.id = taskId → t.completedAtISO = none) →
        ((l.map (fun t =>
            if t.id == taskId then { t with completedAtISO := some whenTs } else t)).map
          (fun t => if t.id == taskId then { t with completedAtISO := none } else t)) = l := by
      intro l
      induction l with
      | nil => intro _; rfl
      | cons t tl ih =>
        intro hl
        simp only [List.map_cons]
        congr 1
        · by_cases hid : (t.id == taskId) = true
          · have hnone := hl t (List.mem_cons_self t tl) (by simpa using hid)
            cases t
            simp_all
          · simp [hid]
        · exact ih (fun t' ht' => hl t' (List.mem_cons_of_mem t ht'))
    simpa [completeMyTask] using hmain tasks h

/-- C7 witness: the theorem at a one-dealer rename whose backend write
fails (the local patch survives) and at a one-task completion whose
backend write fails (the open task is restored unchanged). -/
theorem c7_optimistic_failure_witness :
    updateDealer [dealerOverridden] "d1" ⟨some "Renamed", none, none, none, none, none⟩ true false
      = updateDealerLocal [dealerOverridden] "d1" ⟨some "Renamed", none, none, none, none, none⟩ ∧
    completeMyTask [⟨"t1", "d1", "bob", "Dealer One", 0, none⟩] "t1" 99 false
      = [⟨"t1", "d1", "bob", "Dealer One", 0, none⟩] := by
  constructor
  · exact (c7_optimistic_failure_policy.1 [dealerOverridden] "d1"
      ⟨some "Renamed", none, none, none, none, none⟩ true).1
  · exact c7_optimistic_failure_policy.2 [⟨"t1", "d1", "bob", "Dealer One", 0, none⟩] "t1" 99
      (by decide)

/-! ## C8 -/

/-- Replacing the value at one key of an association list: the lookup of
that key afterwards is either absent or the replacement value. -/
lemma lookup_map_override (l : List (String × List String)) (st : String) (v : List String) :
    lookupRBS (l.map (fun p => if p.1 == st then (p.1, v) else p)) st = none ∨
    lookupRBS (l.map (fun p => if p.1 == st then (p.1, v) else p)) st = some v := by
  induction l with
  | nil => exact Or.inl rfl
  | cons p t ih =>
    simp only [List.map_cons]
    by_cases hst : (p.1 == st) = true
    · rw [if_pos hst]
      right
      unfold lookupRBS
      rw [List.find?_cons_of_pos _ (by simpa using hst)]
      rfl
    · rw [if_neg hst]
      unfold lookupRBS at ih ⊢
      rw [List.find?_cons_of_neg _ (by simpa using hst)]
      exact ih

/-- After `removeRegionFromCatalog`, the region no longer occurs under its
state key (the key itself is gone when its list emptied). -/
lemma removeRegion_not_mem (regions : List (String × List String)) (st rg : String) :
    rg ∉ (lookupRBS (removeRegionFromCatalog regions st rg) st).getD [] := by
  unfold removeRegionFromCatalog
  by_cases he : (((lookupRBS regions st).getD []).filter (fun x => !(x == rg))).isEmpty = true
  · rw [if_pos he]
    have hfind : (regions.filter (fun p => !(p.1 == st))).find? (fun p => p.1 == st) = none := by
      rw [List.find?_eq_none]
      intro p hp
      have := (List.mem_filter.mp hp).2
      simp_all
    simp [lookupRBS, hfind]
  · rw [if_neg he]
    rcases lookup_map_override regions st
        (((lookupRBS regions st).getD []).filter (fun x => !(x == rg))) with h | h
    · rw [h]
      simp
    · rw [h]
      simp only [Option.getD_some]
      intro hmemrg
      have := (List.mem_filter.mp hmemrg).2
      simp at this

/-- C8: `deleteRegion` succeeds iff zero dealers reference the state and
region; with at least one referencing dealer it reports failure and
returns the regions catalog and all user coverage completely unchanged;
on success the region is gone from the catalog under that state. -/
theorem c8_deleteRegion_guard (dealers : List Dealer) (regions : List (String × List String))
    (users : List User) (st rg : String) :
    ((deleteRegion dealers regions users st rg).1 = true ↔ dealerCountFor dealers st rg = 0) ∧
    (0 < dealerCountFor dealers st rg →
      deleteRegion dealers regions users st rg = (false, regions, users)) ∧
    (dealerCountFor dealers st rg = 0 →
      rg ∉ (lookupRBS (deleteRegion dealers regions users st rg).2.1 st).getD []) := by
  refine ⟨?_, ?_, ?_⟩
  · by_cases h0 : dealerCountFor dealers st rg = 0
    · simp [deleteRegion, h0]
    · simp [deleteRegion, Nat.pos_of_ne_zero h0, h0]
  · intro hpos
    simp [deleteRegion, hpos]
  · intro h0
    simp only [deleteRegion, h0, gt_iff_lt, lt_irrefl, if_false]
    exact removeRegion_not_mem regions st rg

/-- C8 witness: the theorem at concrete inputs — with one IL/North dealer
present the delete fails and leaves catalog and coverage untouched; with
no dealers it succeeds and "North" is gone from the IL entry. -/
theorem c8_deleteRegion_witness :
    deleteRegion [dealerOverridden] [("IL", ["North", "South"])] [repBob] "IL" "North"
      = (false, [("IL", ["North", "South"])], [repBob]) ∧
    (deleteRegion [] [("IL", ["North", "South"])] [repBob] "IL" "North").1 = true ∧
    "North" ∉
      (lookupRBS (deleteRegion [] [("IL", ["North", "South"])] [repBob] "IL" "North").2.1
        "IL").getD [] := by
  refine ⟨?_, ?_, ?_⟩
  · exact (c8_deleteRegion_guard [dealerOverridden] [("IL", ["North", "South"])] [repBob]
      "IL" "North").2.1 (by decide)
  · exact (c8_deleteRegion_guard [] [("IL", ["North", "South"])] [repBob] "IL" "North").1.mpr rfl
  · exact (c8_deleteRegion_guard [] [("IL", ["North", "South"])] [repBob] "IL" "North").2.2 rfl

/-! ## C9 -/

/-- C9: the Task created by a Manager-category note from an Admin/Manager
author targets the dealer's override username when one is set (non-empty),
and otherwise the author's own username — the function consults no
coverage data at all, so no coverage-based Rep is ever targeted. -/
theorem c9_managerNoteTask_target (role : Role) (username : String) (dealer : Dealer)
    (nowTs : Int) (taskId : String) (hrole : role = Role.Admin ∨ role = Role.Manager) :
    (∀ x : String, dealer.assignedRepUsername = some x → x ≠ "" →
      managerNoteTask role username NoteCategory.Manager dealer nowTs taskId
        = some ⟨taskId, dealer.id, x, dealer.name, nowTs, none⟩) ∧
    (dealer.assignedRepUsername = none → username ≠ "" →
      managerNoteTask role username NoteCategory.Manager dealer nowTs taskId
        = some ⟨taskId, dealer.id, username, dealer.name, nowTs, none⟩) := by
  have hcan : (role == Role.Admin || role == Role.Manager) = true := by
    rcases hrole with h | h <;> simp [h]
  constructor
  · intro x hx hne
    simp [managerNoteTask, hcan, jsOrStr, hx, hne]
  · intro hx hne
    simp [managerNoteTask, hcan, jsOrStr, hx, hne]

/-- C9 witness: a Manager's note on `dealerOverridden` creates a task for
"alice" (the override), and on an override-free dealer for the Manager
author "mgr" themselves. -/
theorem c9_managerNoteTask_witness :
    managerNoteTask Role.Manager "mgr" NoteCategory.Manager dealerOverridden 0 "t1"
      = some ⟨"t1", "d1", "alice", "Dealer One", 0, none⟩ ∧
    managerNoteTask Role.Manager "mgr" NoteCategory.Manager
        ⟨"d3", "Plain", "IL", "North", DealerStatus.Active, none, none⟩ 0 "t2"
      = some ⟨"t2", "d3", "mgr", "Plain", 0, none⟩ := by
  constructor
  · exact (c9_managerNoteTask_target Role.Manager "mgr" dealerOverridden 0 "t1"
      (Or.inr rfl)).1 "alice" rfl (by decide)
  · exact (c9_managerNoteTask_target Role.Manager "mgr"
      ⟨"d3", "Plain", "IL", "North", DealerStatus.Active, none, none⟩ 0 "t2"
      (Or.inr rfl)).2 rfl (by decide)

/-! ## C10 -/

/-- C10: the session-derived reporting permission holds iff the role is
Admin or Manager; for a Rep session the TopBar Reporting tab is disabled
and the home-screen Reporting shortcut is not shown. -/
theorem c10_reporting_gate (s : SessionInfo) :
    (canReporting (some s) = true ↔ (s.role = Role.Admin ∨ s.role = Role.Manager)) ∧
    (s.role = Role.Rep →
      reportingTabDisabled (some s) = true ∧ canSeeReporting (some s) = false) := by
  constructor
  · simp [canReporting]
  · intro h
    constructor
    · simp [reportingTabDisabled, canReporting, h]
    · simp [canSeeReporting, canReporting, h]

/-- C10 witness: bob's Rep session has the tab disabled and the shortcut
hidden; a Manager session has the reporting permission. -/
theorem c10_reporting_gate_witness :
    reportingTabDisabled (some ⟨"bob", Role.Rep⟩) = true ∧
    canSeeReporting (some ⟨"bob", Role.Rep⟩) = false ∧
    canReporting (some ⟨"boss", Role.Manager⟩) = true := by
  refine ⟨((c10_reporting_gate ⟨"bob", Role.Rep⟩).2 rfl).1,
    ((c10_reporting_gate ⟨"bob", Role.Rep⟩).2 rfl).2,
    (c10_reporting_gate ⟨"boss", Role.Manager⟩).1.mpr (Or.inr rfl)⟩

end DealerNotes
